import Mathlib

/-!
Verification of the `react-video-timeline` timeline widget.

The development shallowly embeds the pure computational core of the
repository into Lean:

* `pixelToTime`, `timeToPixel` — the time/pixel geometry of
  `hooks/use-drag-interaction.ts` (pixel coordinates and seconds are
  modelled as rationals);
* `detectHitArea`, `handleMove` — the hit-testing and the pointer-move
  handler of the drag hook;
* `generateTimePoints` — the timestamp generator of
  `utils/frame-extractor.ts`;
* `extStep` / `hookStep` — small-step trace models of the
  `VideoFrameExtractor` disposal protocol and of the `useFrameExtractor`
  abort flag, faithful to the control flow of the source;
* `drawFrames` — the promise structure of
  `utils/timeline-renderer.ts` frame drawing.
-/

namespace VideoTimeline

/-- `roundToDecimals` from `utils/time-format.ts`:
`Math.round(value * 10^decimals) / 10^decimals`.  JavaScript's
`Math.round` rounds half towards positive infinity, which is exactly
Mathlib's `round`. -/
def roundToDecimals (value : ℚ) (decimals : ℕ) : ℚ :=
  (round (value * 10 ^ decimals) : ℤ) / 10 ^ decimals

/-- The `TimeRange` record of `types.ts`.  The source field `end` is a
Lean keyword and is rendered here as `stop`. -/
structure TimeRange where
  start : ℚ
  stop : ℚ
  deriving DecidableEq, Repr

/-- The `HitAreaType` / `DragType` union of `types.ts`
(`'start' | 'end' | 'cursor' | 'track'`). -/
inductive DragType where
  | startHandle
  | endHandle
  | cursor
  | track
  deriving DecidableEq, Repr

/-- `pixelToTime` from `hooks/use-drag-interaction.ts`: converts a client
x-coordinate into seconds.  Returns 0 when `duration ≤ 0`; otherwise maps
the coordinate linearly over the effective track width and clamps the
result into `[0, duration]` before rounding to 2 decimals. -/
def pixelToTime (duration handleWidth width rectLeft clientX : ℚ) : ℚ :=
  if duration ≤ 0 then 0
  else
    let x := clientX - rectLeft
    let effectiveWidth := width - handleWidth * 2
    let time := (x - handleWidth) / effectiveWidth * duration
    roundToDecimals (max 0 (min duration time)) 2

/-- The time-to-pixel map used throughout the source
(`handleWidth + (t / duration) * effectiveWidth`, e.g. the `startX` /
`endX` computations in `detectHitArea` and in `timeline-renderer.ts`). -/
def timeToPixel (duration handleWidth width t : ℚ) : ℚ :=
  handleWidth + t / duration * (width - handleWidth * 2)

/-- The body of the `switch` statement of `handleMove` in
`hooks/use-drag-interaction.ts`, as a function of the already converted
time.  The first component of the result is the emitted range update
(`onRangeChange`), the second the emitted current-time update
(`onTimeChange`); `none` means the corresponding callback does not
fire in this move step. -/
def handleMoveAtTime (dragType : DragType) (duration minDuration : ℚ)
    (selectedRange : TimeRange) (time : ℚ) : Option TimeRange × Option ℚ :=
  match dragType with
  | .cursor => (none, some time)
  | .startHandle =>
    let newStart := min time (selectedRange.stop - minDuration)
    let clampedStart := max 0 newStart
    if clampedStart ≠ selectedRange.start then
      (some ⟨clampedStart, selectedRange.stop⟩, some clampedStart)
    else (none, none)
  | .endHandle =>
    let newEnd := max time (selectedRange.start + minDuration)
    let clampedEnd := min duration newEnd
    if clampedEnd ≠ selectedRange.stop then
      (some ⟨selectedRange.start, clampedEnd⟩, some clampedEnd)
    else (none, none)
  | .track => (none, none)

/-- `handleMove` from `hooks/use-drag-interaction.ts`: converts the raw
client x-coordinate through `pixelToTime` and dispatches on the active
drag type. -/
def handleMove (dragType : DragType) (duration minDuration : ℚ)
    (selectedRange : TimeRange) (handleWidth width rectLeft clientX : ℚ) :
    Option TimeRange × Option ℚ :=
  handleMoveAtTime dragType duration minDuration selectedRange
    (pixelToTime duration handleWidth width rectLeft clientX)

/-- `detectHitArea` from `hooks/use-drag-interaction.ts`.  `none`
corresponds to the source returning `null` (no hit region). -/
def detectHitArea (scaleHeight frameHeight handleWidth duration width : ℚ)
    (selectedRange : TimeRange) (rectLeft rectTop clientX clientY : ℚ) :
    Option DragType :=
  let x := clientX - rectLeft
  let y := clientY - rectTop
  if y < scaleHeight ∨ y > scaleHeight + frameHeight then
    if 0 ≤ y ∧ y < scaleHeight then some .cursor else none
  else
    let effectiveWidth := width - handleWidth * 2
    let startX := handleWidth + selectedRange.start / duration * effectiveWidth
    let endX := handleWidth + selectedRange.stop / duration * effectiveWidth
    if startX - handleWidth ≤ x ∧ x ≤ startX then some .startHandle
    else if endX ≤ x ∧ x ≤ endX + handleWidth then some .endHandle
    else if startX ≤ x ∧ x ≤ endX then some .cursor
    else some .cursor

/-- The hit-testing rule exactly as the specification words it, in the
spec's precedence order: (1) scale strip → cursor; (2) within
`handleWidth` to the left of the start edge → start; (3) within
`handleWidth` to the right of the end edge → end; (4) anywhere else in
the frame strip → cursor; otherwise no hit. -/
def detectHitAreaSpec (scaleHeight frameHeight handleWidth duration width : ℚ)
    (selectedRange : TimeRange) (rectLeft rectTop clientX clientY : ℚ) :
    Option DragType :=
  let x := clientX - rectLeft
  let y := clientY - rectTop
  let effectiveWidth := width - handleWidth * 2
  let startX := handleWidth + selectedRange.start / duration * effectiveWidth
  let endX := handleWidth + selectedRange.stop / duration * effectiveWidth
  if 0 ≤ y ∧ y < scaleHeight then some .cursor
  else if scaleHeight ≤ y ∧ y ≤ scaleHeight + frameHeight then
    if startX - handleWidth ≤ x ∧ x ≤ startX then some .startHandle
    else if endX ≤ x ∧ x ≤ endX + handleWidth then some .endHandle
    else some .cursor
  else none

/-- The `for (let t = 0; t < duration; t += interval)` loop of
`generateTimePoints` in `utils/frame-extractor.ts`, written with an
explicit fuel so that it is structurally recursive.
`generateTimePoints_loop_stable` shows the default fuel is enough
whenever `interval > 0`, so the fuel is invisible there. -/
def genLoop (duration interval : ℚ) : ℕ → ℚ → List ℚ
  | 0, _ => []
  | n + 1, t => if t < duration then t :: genLoop duration interval n (t + interval) else []

/-- The iteration bound used as default fuel for `genLoop`:
one more than `⌈duration / interval⌉`. -/
def genFuel (duration interval : ℚ) : ℕ :=
  (⌈duration / interval⌉).toNat + 1

/-- `generateTimePoints` from `utils/frame-extractor.ts`: step from 0 by
`interval` while strictly below `duration`, then push `duration - 0.01`
when the last collected point is below `duration - 0.1` (on the empty
list the JavaScript comparison `undefined < x` is false, so nothing is
appended — modelled by the `none` branch). -/
def generateTimePoints (duration interval : ℚ) : List ℚ :=
  let points := genLoop duration interval (genFuel duration interval) 0
  match points.getLast? with
  | some last => if last < duration - 1/10 then points ++ [duration - 1/100] else points
  | none => points

/-! ### Drag-controller theorems -/

/-- Any emitted range update preserves the selection invariant, provided
the prior range itself satisfies it and `minDuration` is nonnegative. -/
theorem handleMoveAtTime_range_invariant
    (dragType : DragType) (duration minDuration time : ℚ)
    (sr : TimeRange) (r : TimeRange)
    (hm : 0 ≤ minDuration) (hmin : minDuration ≤ sr.stop - sr.start)
    (hs : 0 ≤ sr.start) (he : sr.stop ≤ duration)
    (hr : (handleMoveAtTime dragType duration minDuration sr time).1 = some r) :
    minDuration ≤ r.stop - r.start ∧ 0 ≤ r.start ∧ r.start ≤ r.stop ∧
      r.stop ≤ duration := by
  cases dragType with
  | cursor => simp [handleMoveAtTime] at hr
  | track => simp [handleMoveAtTime] at hr
  | startHandle =>
    simp only [handleMoveAtTime] at hr
    split at hr
    · obtain ⟨rfl⟩ : r = ⟨max 0 (min time (sr.stop - minDuration)), sr.stop⟩ := by
        simpa using hr.symm
      have hub : max 0 (min time (sr.stop - minDuration)) ≤ sr.stop - minDuration :=
        max_le (by linarith) (min_le_right _ _)
      have hlb : (0:ℚ) ≤ max 0 (min time (sr.stop - minDuration)) :=
        le_max_left _ _
      exact ⟨by linarith, hlb, by linarith, he⟩
    · simp at hr
  | endHandle =>
    simp only [handleMoveAtTime] at hr
    split at hr
    · obtain ⟨rfl⟩ : r = ⟨sr.start, min duration (max time (sr.start + minDuration))⟩ := by
        simpa using hr.symm
      have hlb : sr.start + minDuration ≤
          min duration (max time (sr.start + minDuration)) :=
        le_min (by linarith) (le_max_right _ _)
      have hub : min duration (max time (sr.start + minDuration)) ≤ duration :=
        min_le_left _ _
      exact ⟨by linarith, hs, by linarith, hub⟩
    · simp at hr

/-- C1 (corrected, counterexample): with prior range `{start: 1/2, end: 3/4}`
(which satisfies `0 ≤ start ≤ end ≤ duration = 10` but is narrower than
`minDuration = 1`), dragging the start handle at client x-coordinate 0
(handleWidth 0, track width 10, rect left 0 — a raw pointer position)
emits the range `{start: 0, end: 3/4}`, whose length `3/4` is below
`minDuration`.  So the claimed invariant does not hold for every prior
range with merely `0 ≤ start ≤ end ≤ duration`. -/
theorem claim_C1_counterexample :
    (0:ℚ) ≤ 1/2 ∧ (1/2:ℚ) ≤ 3/4 ∧ (3/4:ℚ) ≤ 10 ∧
      (handleMove .startHandle 10 1 ⟨1/2, 3/4⟩ 0 10 0 0).1 = some ⟨0, 3/4⟩ ∧
      ¬ (1 ≤ (3/4:ℚ) - 0) := by
  norm_num [handleMove, handleMoveAtTime, pixelToTime, roundToDecimals, round_eq]

/-- C1 (amended): for every drag-driven range update emitted by the move
handler, if additionally `0 ≤ minDuration` and the prior range already
satisfies `end - start ≥ minDuration`, then the emitted range satisfies
`end - start ≥ minDuration` and `0 ≤ start ≤ end ≤ duration`, for any
drag type and any raw pointer coordinate. -/
theorem claim_C1_amended
    (dragType : DragType) (duration minDuration : ℚ) (sr : TimeRange)
    (handleWidth width rectLeft clientX : ℚ) (r : TimeRange)
    (hm : 0 ≤ minDuration) (hmin : minDuration ≤ sr.stop - sr.start)
    (hs : 0 ≤ sr.start) (he : sr.stop ≤ duration)
    (hr : (handleMove dragType duration minDuration sr
            handleWidth width rectLeft clientX).1 = some r) :
    minDuration ≤ r.stop - r.start ∧ 0 ≤ r.start ∧ r.start ≤ r.stop ∧
      r.stop ≤ duration :=
  handleMoveAtTime_range_invariant dragType duration minDuration _ sr r
    hm hmin hs he hr

/-- C1 witness: the amended theorem applied at the concrete drag of the
spec's scenario (`selectedRange = {2, 8}`, `minDuration = 1`,
`duration = 10`, pointer at raw time 7.5). -/
theorem claim_C1_amended_witness :
    (1:ℚ) ≤ 8 - 7 ∧ (0:ℚ) ≤ 7 ∧ (7:ℚ) ≤ 8 ∧ (8:ℚ) ≤ 10 :=
  claim_C1_amended .startHandle 10 1 ⟨2, 8⟩ 0 10 0 (15/2) ⟨7, 8⟩
    (by norm_num) (by norm_num) (by norm_num) (by norm_num)
    (by norm_num [handleMove, handleMoveAtTime, pixelToTime,
      roundToDecimals, round_eq])

/-- C4: while dragging the start handle the new start is
`max 0 (min t (end - minDuration))`, a range update (with the current
time tracking it) is emitted exactly when this differs from the current
start; symmetrically for the end handle; and in the concrete scenario
(`selectedRange = {2, 8}`, raw time `7.5`, `minDuration = 1`) the emitted
range is `{7, 8}` and the current time becomes 7. -/
theorem claim_C4_move_formula :
    (∀ (duration minDuration t : ℚ) (sr : TimeRange),
      handleMoveAtTime .startHandle duration minDuration sr t =
        if max 0 (min t (sr.stop - minDuration)) ≠ sr.start then
          (some ⟨max 0 (min t (sr.stop - minDuration)), sr.stop⟩,
           some (max 0 (min t (sr.stop - minDuration))))
        else (none, none)) ∧
    (∀ (duration minDuration t : ℚ) (sr : TimeRange),
      handleMoveAtTime .endHandle duration minDuration sr t =
        if min duration (max t (sr.start + minDuration)) ≠ sr.stop then
          (some ⟨sr.start, min duration (max t (sr.start + minDuration))⟩,
           some (min duration (max t (sr.start + minDuration))))
        else (none, none)) ∧
    handleMoveAtTime .startHandle 10 1 ⟨2, 8⟩ (15/2) = (some ⟨7, 8⟩, some 7) := by
  refine ⟨fun duration minDuration t sr => rfl,
          fun duration minDuration t sr => rfl, ?_⟩
  norm_num [handleMoveAtTime]

/-- C10: while dragging the start or end handle, a current-time update is
emitted exactly when a range update is emitted in the same move step, and
nothing is emitted exactly when the clamped candidate equals the current
edge value. -/
theorem claim_C10_time_iff_range (duration minDuration t : ℚ) (sr : TimeRange) :
    ((handleMoveAtTime .startHandle duration minDuration sr t).1.isSome =
      (handleMoveAtTime .startHandle duration minDuration sr t).2.isSome) ∧
    ((handleMoveAtTime .endHandle duration minDuration sr t).1.isSome =
      (handleMoveAtTime .endHandle duration minDuration sr t).2.isSome) ∧
    (handleMoveAtTime .startHandle duration minDuration sr t = (none, none) ↔
      max 0 (min t (sr.stop - minDuration)) = sr.start) ∧
    (handleMoveAtTime .endHandle duration minDuration sr t = (none, none) ↔
      min duration (max t (sr.start + minDuration)) = sr.stop) := by
  simp only [handleMoveAtTime]
  constructor
  · split <;> simp
  constructor
  · split <;> simp
  constructor
  · split <;> simp_all
  · split <;> simp_all

/-- C6: for `t ∈ [0, duration]`, positive duration and a track wider than
the two handles, converting a time to a pixel coordinate and back yields
the original time within 0.01 seconds (the only loss is the rounding to
2 decimals in `pixelToTime`). -/
theorem claim_C6_roundtrip (duration handleWidth width rectLeft t : ℚ)
    (hd : 0 < duration) (hw : 2 * handleWidth < width)
    (ht0 : 0 ≤ t) (htd : t ≤ duration) :
    |pixelToTime duration handleWidth width rectLeft
        (rectLeft + timeToPixel duration handleWidth width t) - t| ≤ 1/100 := by
  have heff : (0:ℚ) < width - handleWidth * 2 := by linarith
  simp only [pixelToTime, timeToPixel]
  rw [if_neg (not_le.mpr hd)]
  have htime : (rectLeft + (handleWidth + t / duration * (width - handleWidth * 2))
      - rectLeft - handleWidth) / (width - handleWidth * 2) * duration = t := by
    have h1 : rectLeft + (handleWidth + t / duration * (width - handleWidth * 2))
        - rectLeft - handleWidth = t / duration * (width - handleWidth * 2) := by
      ring
    rw [h1]
    field_simp
    ring
  rw [htime, min_eq_right htd, max_eq_right ht0, roundToDecimals]
  have h2 : |t * 10 ^ 2 - round (t * 10 ^ 2)| ≤ 1/2 := abs_sub_round _
  have h3 : ((round (t * 10 ^ 2) : ℚ) / 10 ^ 2 - t)
      = -((t * 10 ^ 2 - (round (t * 10 ^ 2) : ℚ)) / 10 ^ 2) := by
    ring
  rw [h3, abs_neg, abs_div]
  rw [show |(10:ℚ) ^ 2| = 10 ^ 2 by norm_num]
  rw [div_le_iff₀ (by norm_num : (0:ℚ) < 10 ^ 2)]
  linarith

/-- C6 witness: the round trip at `t = 3` on a 10-second track of width
12 with handle width 1. -/
theorem claim_C6_roundtrip_witness :
    |pixelToTime 10 1 12 5 (5 + timeToPixel 10 1 12 3) - 3| ≤ 1/100 :=
  claim_C6_roundtrip 10 1 12 5 3 (by norm_num) (by norm_num)
    (by norm_num) (by norm_num)

/-- C7: the source hit-test agrees with the specified precedence order at
every pointer coordinate and every configuration: scale strip → cursor
(regardless of x), then start-edge zone, then end-edge zone, then cursor
anywhere else in the frame strip, and no hit outside both strips. -/
theorem claim_C7_hit_area (scaleHeight frameHeight handleWidth duration width : ℚ)
    (sr : TimeRange) (rectLeft rectTop clientX clientY : ℚ) :
    detectHitArea scaleHeight frameHeight handleWidth duration width sr
        rectLeft rectTop clientX clientY =
      detectHitAreaSpec scaleHeight frameHeight handleWidth duration width sr
        rectLeft rectTop clientX clientY := by
  simp only [detectHitArea, detectHitAreaSpec]
  set x := clientX - rectLeft with hxdef
  set y := clientY - rectTop with hydef
  by_cases hB : 0 ≤ y ∧ y < scaleHeight
  · rw [if_pos (Or.inl hB.2), if_pos hB, if_pos hB]
  · rw [if_neg hB]
    by_cases hA : y < scaleHeight ∨ y > scaleHeight + frameHeight
    · have hD : ¬(scaleHeight ≤ y ∧ y ≤ scaleHeight + frameHeight) := by
        rcases hA with h | h
        · exact fun hc => absurd h (not_lt.mpr hc.1)
        · exact fun hc => absurd h (not_lt.mpr hc.2)
      rw [if_pos hA, if_neg hB, if_neg hD]
    · have hD : scaleHeight ≤ y ∧ y ≤ scaleHeight + frameHeight := by
        push_neg at hA
        exact hA
      rw [if_neg hA, if_neg hB, if_pos hD]
      by_cases hC1 : handleWidth + sr.start / duration * (width - handleWidth * 2)
          - handleWidth ≤ x ∧
          x ≤ handleWidth + sr.start / duration * (width - handleWidth * 2)
      · rw [if_pos hC1, if_pos hC1]
      · rw [if_neg hC1, if_neg hC1]
        by_cases hC2 : handleWidth + sr.stop / duration * (width - handleWidth * 2) ≤ x ∧
            x ≤ handleWidth + sr.stop / duration * (width - handleWidth * 2) + handleWidth
        · rw [if_pos hC2, if_pos hC2]
        · rw [if_neg hC2, if_neg hC2, ite_self]

/-! ### Timestamp-generation theorems -/

/-- One extra unit of fuel changes nothing once the fuel covers the
remaining iteration count `⌈(duration - t) / interval⌉`. -/
theorem genLoop_succ_eq (duration interval : ℚ) (hi : 0 < interval) :
    ∀ (n : ℕ) (t : ℚ), (⌈(duration - t) / interval⌉).toNat ≤ n →
      genLoop duration interval (n + 1) t = genLoop duration interval n t := by
  intro n
  induction n with
  | zero =>
    intro t h
    have hnlt : ¬ t < duration := by
      intro hlt
      have hpos : 0 < (duration - t) / interval :=
        div_pos (by linarith) hi
      have hone : (1:ℤ) ≤ ⌈(duration - t) / interval⌉ := Int.ceil_pos.mpr hpos
      omega
    simp [genLoop, hnlt]
  | succ n ih =>
    intro t h
    by_cases hlt : t < duration
    · have hone : (1:ℤ) ≤ ⌈(duration - t) / interval⌉ :=
        Int.ceil_pos.mpr (div_pos (by linarith) hi)
      have hstep : (duration - (t + interval)) / interval
          = (duration - t) / interval - 1 := by
        field_simp
        ring
      have hceil : ⌈(duration - (t + interval)) / interval⌉
          = ⌈(duration - t) / interval⌉ - 1 := by
        rw [hstep, show (duration - t) / interval - 1
            = (duration - t) / interval - (1:ℤ) by push_cast; ring]
        exact Int.ceil_sub_int ((duration - t) / interval) 1
      have hrec : (⌈(duration - (t + interval)) / interval⌉).toNat ≤ n := by
        rw [hceil]; omega
      show (if t < duration then
          t :: genLoop duration interval (n + 1) (t + interval) else []) =
        (if t < duration then
          t :: genLoop duration interval n (t + interval) else [])
      rw [if_pos hlt, if_pos hlt, ih (t + interval) hrec]
    · show (if t < duration then _ else ([] : List ℚ)) =
        (if t < duration then _ else [])
      rw [if_neg hlt, if_neg hlt]

/-- Fuel beyond the remaining iteration count is irrelevant. -/
theorem genLoop_stable (duration interval : ℚ) (hi : 0 < interval)
    (n m : ℕ) (t : ℚ) (hn : (⌈(duration - t) / interval⌉).toNat ≤ n)
    (hnm : n ≤ m) :
    genLoop duration interval m t = genLoop duration interval n t := by
  induction m, hnm using Nat.le_induction with
  | base => rfl
  | succ m hm ih =>
    rw [genLoop_succ_eq duration interval hi m t (le_trans hn hm), ih]

/-- Every point produced by the loop is strictly below `duration`. -/
theorem genLoop_lt_duration (duration interval : ℚ) :
    ∀ (n : ℕ) (t : ℚ), ∀ p ∈ genLoop duration interval n t, p < duration := by
  intro n
  induction n with
  | zero => intro t p hp; simp [genLoop] at hp
  | succ n ih =>
    intro t p hp
    by_cases hlt : t < duration
    · simp only [genLoop, if_pos hlt, List.mem_cons] at hp
      rcases hp with rfl | hp
      · exact hlt
      · exact ih (t + interval) p hp
    · simp [genLoop, hlt] at hp

/-- The loop output starts at its initial counter value when nonempty. -/
theorem genLoop_head? (duration interval : ℚ) (n : ℕ) (t : ℚ) :
    (genLoop duration interval n t).head? = none ∨
      (genLoop duration interval n t).head? = some t := by
  cases n with
  | zero => exact Or.inl rfl
  | succ n =>
    by_cases hlt : t < duration
    · exact Or.inr (by simp [genLoop, hlt])
    · exact Or.inl (by simp [genLoop, hlt])

/-- The loop output is strictly ascending (the counter grows by
`interval > 0` at each step). -/
theorem genLoop_chain (duration interval : ℚ) (hi : 0 < interval) :
    ∀ (n : ℕ) (t : ℚ), List.Chain' (· < ·) (genLoop duration interval n t) := by
  intro n
  induction n with
  | zero => intro t; simp [genLoop]
  | succ n ih =>
    intro t
    by_cases hlt : t < duration
    · simp only [genLoop, if_pos hlt]
      rw [List.chain'_cons']
      refine ⟨?_, ih (t + interval)⟩
      intro b hb
      rcases genLoop_head? duration interval n (t + interval) with h | h
      · rw [h] at hb; simp at hb
      · rw [h] at hb
        simp only [Option.mem_def, Option.some.injEq] at hb
        subst hb
        linarith
    · simp [genLoop, hlt]

/-- With positive duration the loop emits at least the point 0. -/
theorem genLoop_ne_nil (duration interval : ℚ) (hd : 0 < duration) (n : ℕ) :
    genLoop duration interval (n + 1) 0 ≠ [] := by
  simp [genLoop, hd]

/-- Unfolding equation of `generateTimePoints` when the loop emitted at
least one point. -/
theorem generateTimePoints_eq_some (duration interval last : ℚ)
    (h : (genLoop duration interval (genFuel duration interval) 0).getLast?
      = some last) :
    generateTimePoints duration interval =
      if last < duration - 1/10 then
        genLoop duration interval (genFuel duration interval) 0
          ++ [duration - 1/100]
      else genLoop duration interval (genFuel duration interval) 0 := by
  simp only [generateTimePoints]
  rw [h]

/-- Unfolding equation of `generateTimePoints` when the loop emitted no
point. -/
theorem generateTimePoints_eq_none (duration interval : ℚ)
    (h : (genLoop duration interval (genFuel duration interval) 0).getLast?
      = none) :
    generateTimePoints duration interval =
      genLoop duration interval (genFuel duration interval) 0 := by
  simp only [generateTimePoints]
  rw [h]

/-- C9: for every `duration` and every `interval > 0` the generation loop
terminates — its result is unchanged by any extra fuel beyond the default
bound — and `generateTimePoints` returns a finite strictly ascending
list. -/
theorem claim_C9_terminates_ascending (duration interval : ℚ)
    (hi : 0 < interval) :
    (∀ extra : ℕ,
      genLoop duration interval (genFuel duration interval + extra) 0 =
        genLoop duration interval (genFuel duration interval) 0) ∧
    List.Chain' (· < ·) (generateTimePoints duration interval) := by
  have hbound : (⌈(duration - 0) / interval⌉).toNat ≤ genFuel duration interval := by
    rw [sub_zero]
    simp only [genFuel]
    omega
  constructor
  · intro extra
    exact genLoop_stable duration interval hi
      (genFuel duration interval) (genFuel duration interval + extra) 0 hbound
      (Nat.le_add_right _ _)
  · cases hlast : (genLoop duration interval (genFuel duration interval) 0).getLast? with
    | none =>
      rw [generateTimePoints_eq_none duration interval hlast]
      exact genLoop_chain duration interval hi _ 0
    | some last =>
      rw [generateTimePoints_eq_some duration interval last hlast]
      by_cases hlt : last < duration - 1/10
      · rw [if_pos hlt, List.chain'_append]
        refine ⟨genLoop_chain duration interval hi _ 0, List.chain'_singleton _, ?_⟩
        intro p hp q hq
        rw [hlast] at hp
        simp only [Option.mem_def, Option.some.injEq] at hp
        simp only [List.head?_cons, Option.mem_def, Option.some.injEq] at hq
        subst hp
        subst hq
        linarith
      · rw [if_neg hlt]
        exact genLoop_chain duration interval hi _ 0

/-- C9 witness: the theorem instantiated at `duration = 10`,
`interval = 2`. -/
theorem claim_C9_terminates_ascending_witness :
    genLoop 10 2 (genFuel 10 2 + 3) 0 = genLoop 10 2 (genFuel 10 2) 0 ∧
      List.Chain' (· < ·) (generateTimePoints 10 2) :=
  ⟨(claim_C9_terminates_ascending 10 2 (by norm_num)).1 3,
   (claim_C9_terminates_ascending 10 2 (by norm_num)).2⟩

/-- C5: `generateTimePoints 10 2 = [0, 2, 4, 6, 8, 9.99]` (6 points), and
for every `duration > 0`, `interval > 0` the result contains a point
within 0.1 s of `duration`. -/
theorem claim_C5_covers_end (duration interval : ℚ)
    (hd : 0 < duration) (hi : 0 < interval) :
    generateTimePoints 10 2 = [0, 2, 4, 6, 8, 999/100] ∧
      ∃ p ∈ generateTimePoints duration interval, duration - p ≤ 1/10 := by
  constructor
  · norm_num [generateTimePoints, genLoop, genFuel]
  · have hne : genLoop duration interval (genFuel duration interval) 0 ≠ [] := by
      have : genFuel duration interval = (⌈duration / interval⌉).toNat + 1 := rfl
      rw [this]
      exact genLoop_ne_nil duration interval hd _
    obtain ⟨last, hlast⟩ : ∃ l,
        (genLoop duration interval (genFuel duration interval) 0).getLast? = some l := by
      cases h : (genLoop duration interval (genFuel duration interval) 0).getLast? with
      | none => exact absurd (List.getLast?_eq_none_iff.mp h) hne
      | some l => exact ⟨l, rfl⟩
    rw [generateTimePoints_eq_some duration interval last hlast]
    by_cases hcase : last < duration - 1/10
    · refine ⟨duration - 1/100, ?_, by norm_num⟩
      rw [if_pos hcase]
      simp
    · refine ⟨last, ?_, by linarith [not_lt.mp hcase]⟩
      rw [if_neg hcase]
      exact List.mem_of_mem_getLast? hlast

/-- C5 witness: the theorem instantiated at `duration = 10`,
`interval = 2`. -/
theorem claim_C5_covers_end_witness :
    generateTimePoints 10 2 = [0, 2, 4, 6, 8, 999/100] ∧
      ∃ p ∈ generateTimePoints 10 2, (10:ℚ) - p ≤ 1/10 :=
  claim_C5_covers_end 10 2 (by norm_num) (by norm_num)

/-! ### Renderer draw pass (`utils/timeline-renderer.ts`) -/

/-- The `VideoFrame` record of `types.ts`: a sampled timestamp together
with its encoded thumbnail payload (a data-URL string in the source). -/
structure VideoFrame where
  time : ℚ
  imageData : String
  deriving DecidableEq, Repr

/-- `TimelineRenderer.loadImage`: resolving one thumbnail either succeeds
with a decoded image or rejects with the source's error message.  The
environment's image decoder is abstracted as `resolve`. -/
def loadImage (resolve : String → Option String) (src : String) :
    Except String String :=
  match resolve src with
  | some img => Except.ok img
  | none => Except.error "图像加载失败"

/-- `TimelineRenderer.preloadFrameImages`: load every not-yet-cached
thumbnail and extend the `frameImages` cache.  The source awaits
`Promise.all` over one `loadImage` promise per frame, so the combined
promise rejects as soon as any single load rejects; the sequential
`foldlM` over `Except` models exactly that all-or-nothing rejection. -/
def preloadFrameImages (resolve : String → Option String)
    (cache : List (String × String)) (frames : List VideoFrame) :
    Except String (List (String × String)) :=
  frames.foldlM
    (fun c f =>
      if (c.lookup f.imageData).isSome then Except.ok c
      else (loadImage resolve f.imageData).map fun img =>
        c ++ [(f.imageData, img)])
    cache

/-- `TimelineRenderer.drawFrames`: first `await preloadFrameImages`
(whose rejection propagates out of `drawFrames`, skipping the drawing
loop entirely), then draw one tile per frame whose image is in the
cache.  The `ok` payload lists the tile images actually drawn by this
call, in order. -/
def drawFrames (resolve : String → Option String)
    (cache : List (String × String)) (frames : List VideoFrame) :
    Except String (List String) :=
  match preloadFrameImages resolve cache frames with
  | Except.error e => Except.error e
  | Except.ok cache2 => Except.ok (frames.filterMap fun f => cache2.lookup f.imageData)

/-- A decoder that resolves thumbnail `"b"` and fails on everything
else. -/
def resolveOnlyB : String → Option String :=
  fun s => if s = "b" then some "B" else none

/-- C3 (code bug): frame `"b"` draws fine on its own, but as soon as the
list also contains the unresolvable frame `"a"`, the whole draw pass
rejects and no tile at all is drawn — the failure of one tile blocks the
rendering of the others, contrary to the claim. -/
theorem claim_C3_one_failure_blocks_all :
    drawFrames resolveOnlyB [] [⟨1, "b"⟩] = Except.ok ["B"] ∧
      drawFrames resolveOnlyB [] [⟨0, "a"⟩, ⟨1, "b"⟩]
        = Except.error "图像加载失败" := by
  constructor <;> rfl


/-! ### `VideoFrameExtractor` disposal protocol (`utils/frame-extractor.ts`)

A small-step trace model of the extractor's observable behaviour, at the
granularity of the source's suspension points: each loop iteration of
`extractFrames` first checks `isDisposed`, then issues a seek and
suspends in `await this.captureFrame(time)`; when that promise resolves
the frame is pushed and `onProgress` fires *before* the next disposal
check.  `dispose()` runs only while the extraction is suspended.  Blob
URLs are numbered by a fresh counter standing in for
`URL.createObjectURL`; `revoked` is the log of `URL.revokeObjectURL`
calls; `events` is the log of extractor-level callbacks. -/

/-- The extractor-level callbacks: a captured frame appended to the
result, the `onProgress` invocation that follows it, and a rejection
reaching the caller's error path. -/
inductive ExtEvent where
  | frame (t : ℚ)
  | progress
  | errorCb
  deriving DecidableEq, Repr

/-- The mutable fields of a `VideoFrameExtractor` that the disposal
protocol touches: the terminal flag, the pending capture (if the
extraction loop is suspended in `captureFrame`), the blob URL, and the
two ghost logs. -/
structure ExtractorState where
  isDisposed : Bool
  awaiting : Option ℚ
  blobUrl : Option ℕ
  created : List ℕ
  revoked : List ℕ
  nextUrl : ℕ
  events : List ExtEvent
  deriving DecidableEq, Repr

/-- The fresh extractor produced by the constructor. -/
def extInit : ExtractorState :=
  { isDisposed := false, awaiting := none, blobUrl := none, created := [],
    revoked := [], nextUrl := 0, events := [] }

/-- The atomic steps of the extractor's lifetime. -/
inductive ExtOp where
  | loadFile
  | seekStart (t : ℚ)
  | seekResolve
  | errorEvent
  | dispose
  deriving DecidableEq, Repr

/-- One step of the extractor, following the source:

* `loadFile` — `loadVideo` with a `File` source: throws immediately when
  disposed (no state change); otherwise revokes any previous blob URL
  and installs a fresh one via `URL.createObjectURL`.
* `seekStart t` — the top of one `extractFrames` loop iteration:
  `if (this.isDisposed) break`, otherwise `captureFrame(t)` assigns
  `video.currentTime` and the extraction suspends awaiting `seeked`.
* `seekResolve` — the pending `captureFrame` promise resolves: the frame
  is pushed and `onProgress` fires.  The source performs no disposal
  check between the resume and these two emissions.
* `errorEvent` — the video element's `error` event: `handleError`
  returns silently when disposed, otherwise rejects into the caller's
  error path.
* `dispose` — sets the terminal flag and revokes the outstanding blob
  URL (setting it to `null` so it can never be revoked again); the
  pending seek promise is not cancelled. -/
def extStep (s : ExtractorState) (op : ExtOp) : ExtractorState :=
  match op with
  | .loadFile =>
    if s.isDisposed then s
    else
      let s1 :=
        match s.blobUrl with
        | some u => { s with revoked := s.revoked ++ [u], blobUrl := none }
        | none => s
      { s1 with blobUrl := some s1.nextUrl,
                created := s1.created ++ [s1.nextUrl],
                nextUrl := s1.nextUrl + 1 }
  | .seekStart t =>
    if s.isDisposed then s
    else
      match s.awaiting with
      | none => { s with awaiting := some t }
      | some _ => s
  | .seekResolve =>
    match s.awaiting with
    | some t =>
      { s with awaiting := none, events := s.events ++ [.frame t, .progress] }
    | none => s
  | .errorEvent =>
    if s.isDisposed then s
    else { s with events := s.events ++ [.errorCb] }
  | .dispose =>
    let s1 := { s with isDisposed := true }
    match s1.blobUrl with
    | some u => { s1 with revoked := s1.revoked ++ [u], blobUrl := none }
    | none => s1

/-- Running a sequence of steps. -/
def extRun (s : ExtractorState) (ops : List ExtOp) : ExtractorState :=
  ops.foldl extStep s

/-- The inductive invariant of the extractor: the revocation log is
duplicate-free, all URLs are below the fresh counter, the outstanding
URL is never already revoked, a URL was created iff it is revoked or
still outstanding, and a disposed extractor holds no URL. -/
def ExtInv (s : ExtractorState) : Prop :=
  s.revoked.Nodup ∧
  (∀ u ∈ s.revoked, u < s.nextUrl) ∧
  (∀ u, s.blobUrl = some u → u < s.nextUrl ∧ u ∉ s.revoked) ∧
  (∀ u, u ∈ s.created ↔ (u ∈ s.revoked ∨ s.blobUrl = some u)) ∧
  (s.isDisposed = true → s.blobUrl = none)

theorem extInv_init : ExtInv extInit := by
  refine ⟨List.nodup_nil, ?_, ?_, ?_, ?_⟩ <;> simp [extInit]

theorem extInv_step (s : ExtractorState) (op : ExtOp) (h : ExtInv s) :
    ExtInv (extStep s op) := by
  obtain ⟨hnd, hlt, hcur, hmem, hdisp⟩ := h
  have hself : s.nextUrl ∉ s.revoked := fun hin => lt_irrefl _ (hlt _ hin)
  cases op with
  | loadFile =>
    by_cases hd : s.isDisposed = true
    · simpa [extStep, hd] using ⟨hnd, hlt, hcur, hmem, hdisp⟩
    · cases hb : s.blobUrl with
      | none =>
        simp only [extStep, hd, hb, ExtInv]
        simp only [Bool.false_eq_true, if_false]
        refine ⟨hnd, fun u hu => lt_trans (hlt u hu) (Nat.lt_succ_self _),
          ?_, ?_, by simp⟩
        · intro u hu
          simp only [Option.some.injEq] at hu
          subst hu
          exact ⟨Nat.lt_succ_self _, hself⟩
        · intro u
          have h1 : u ∈ s.created ↔ u ∈ s.revoked := by
            rw [hmem u, hb]
            simp
          simp only [List.mem_append, List.mem_singleton, Option.some.injEq]
          constructor
          · rintro (h | rfl)
            · exact Or.inl (h1.mp h)
            · exact Or.inr rfl
          · rintro (h | rfl)
            · exact Or.inl (h1.mpr h)
            · exact Or.inr rfl
      | some u0 =>
        obtain ⟨hu0lt, hu0nr⟩ := hcur u0 hb
        simp only [extStep, hd, hb, ExtInv]
        simp only [Bool.false_eq_true, if_false]
        refine ⟨?_, ?_, ?_, ?_, by simp⟩
        · rw [List.nodup_append]
          exact ⟨hnd, List.nodup_singleton _,
            by simpa [List.disjoint_singleton] using hu0nr⟩
        · intro u hu
          simp only [List.mem_append, List.mem_singleton] at hu
          rcases hu with hu | rfl
          · exact lt_trans (hlt u hu) (Nat.lt_succ_self _)
          · exact lt_trans hu0lt (Nat.lt_succ_self _)
        · intro u hu
          simp only [Option.some.injEq] at hu
          subst hu
          refine ⟨Nat.lt_succ_self _, ?_⟩
          simp only [List.mem_append, List.mem_singleton]
          rintro (hin | rfl)
          · exact hself hin
          · exact lt_irrefl _ hu0lt
        · intro u
          have h1 : u ∈ s.created ↔ u ∈ s.revoked ∨ u = u0 := by
            rw [hmem u, hb]
            simp only [Option.some.injEq]
            constructor
            · rintro (h | rfl)
              · exact Or.inl h
              · exact Or.inr rfl
            · rintro (h | rfl)
              · exact Or.inl h
              · exact Or.inr rfl
          simp only [List.mem_append, List.mem_singleton, Option.some.injEq]
          constructor
          · rintro (h | rfl)
            · exact Or.inl (h1.mp h)
            · exact Or.inr rfl
          · rintro (h | rfl)
            · exact Or.inl (h1.mpr h)
            · exact Or.inr rfl
  | seekStart t =>
    by_cases hd : s.isDisposed = true
    · simpa [extStep, hd] using ⟨hnd, hlt, hcur, hmem, hdisp⟩
    · cases ha : s.awaiting with
      | none =>
        simpa [extStep, hd, ha, ExtInv] using ⟨hnd, hlt, hcur, hmem⟩
      | some t0 =>
        simpa [extStep, hd, ha] using ⟨hnd, hlt, hcur, hmem, hdisp⟩
  | seekResolve =>
    cases ha : s.awaiting with
    | none => simpa [extStep, ha] using ⟨hnd, hlt, hcur, hmem, hdisp⟩
    | some t0 =>
      simpa [extStep, ha, ExtInv] using ⟨hnd, hlt, hcur, hmem, hdisp⟩
  | errorEvent =>
    by_cases hd : s.isDisposed = true
    · simpa [extStep, hd] using ⟨hnd, hlt, hcur, hmem, hdisp⟩
    · simpa [extStep, hd, ExtInv] using ⟨hnd, hlt, hcur, hmem⟩
  | dispose =>
    cases hb : s.blobUrl with
    | none =>
      simp only [extStep, hb, ExtInv]
      refine ⟨hnd, hlt, by simp, ?_, fun _ => trivial⟩
      intro u
      rw [hmem u, hb]
    | some u0 =>
      obtain ⟨hu0lt, hu0nr⟩ := hcur u0 hb
      simp only [extStep, hb, ExtInv]
      refine ⟨?_, ?_, by simp, ?_, fun _ => trivial⟩
      · rw [List.nodup_append]
        exact ⟨hnd, List.nodup_singleton _,
          by simpa [List.disjoint_singleton] using hu0nr⟩
      · intro u hu
        simp only [List.mem_append, List.mem_singleton] at hu
        rcases hu with hu | rfl
        · exact hlt u hu
        · exact hu0lt
      · intro u
        rw [hmem u, hb]
        simp only [List.mem_append, List.mem_singleton, Option.some.injEq,
          reduceCtorEq, or_false]
        constructor
        · rintro (h | rfl)
          · exact Or.inl h
          · exact Or.inr rfl
        · rintro (h | rfl)
          · exact Or.inl h
          · exact Or.inr rfl

theorem extInv_run (ops : List ExtOp) (s : ExtractorState) (h : ExtInv s) :
    ExtInv (extRun s ops) := by
  induction ops generalizing s with
  | nil => exact h
  | cons op ops ih => exact ih (extStep s op) (extInv_step s op h)

/-- A disposed extractor never emits through `seekStart`, `errorEvent`,
`loadFile` or another `dispose`; only a pending `seekResolve` can still
change it. -/
theorem extStep_of_disposed (s : ExtractorState) (hd : s.isDisposed = true)
    (hb : s.blobUrl = none) :
    extStep s ExtOp.loadFile = s ∧ (∀ t, extStep s (ExtOp.seekStart t) = s) ∧
      extStep s ExtOp.errorEvent = s ∧ extStep s ExtOp.dispose = s := by
  have heta : { s with isDisposed := true } = s := by
    cases s
    simp_all
  refine ⟨by simp [extStep, hd], fun t => by simp [extStep, hd],
    by simp [extStep, hd], ?_⟩
  simp only [extStep, hb]
  rw [← hb, heta]

/-- After disposal, a run can deliver at most the one pending capture:
the event log either stays put or grows by exactly that frame and its
progress callback. -/
theorem extRun_events_of_disposed (ops : List ExtOp) (s : ExtractorState)
    (hd : s.isDisposed = true) (hb : s.blobUrl = none) :
    ((extRun s ops).events = s.events ∧ (extRun s ops).awaiting = s.awaiting) ∨
      (∃ t, s.awaiting = some t ∧
        (extRun s ops).events = s.events ++ [ExtEvent.frame t, ExtEvent.progress] ∧
        (extRun s ops).awaiting = none) := by
  induction ops generalizing s with
  | nil => exact Or.inl ⟨rfl, rfl⟩
  | cons op ops ih =>
    obtain ⟨h1, h2, h3, h4⟩ := extStep_of_disposed s hd hb
    cases op with
    | loadFile =>
      rw [show extRun s (ExtOp.loadFile :: ops) = extRun s ops from by
        simp [extRun, h1]]
      exact ih s hd hb
    | seekStart t =>
      rw [show extRun s (ExtOp.seekStart t :: ops) = extRun s ops from by
        simp [extRun, h2 t]]
      exact ih s hd hb
    | errorEvent =>
      rw [show extRun s (ExtOp.errorEvent :: ops) = extRun s ops from by
        simp [extRun, h3]]
      exact ih s hd hb
    | dispose =>
      rw [show extRun s (ExtOp.dispose :: ops) = extRun s ops from by
        simp [extRun, h4]]
      exact ih s hd hb
    | seekResolve =>
      cases ha : s.awaiting with
      | none =>
        rw [show extRun s (ExtOp.seekResolve :: ops) = extRun s ops from by
          simp [extRun, extStep, ha]]
        simpa [ha] using ih s hd hb
      | some t =>
        have hstep : extStep s ExtOp.seekResolve =
            { s with awaiting := none,
                     events := s.events ++ [ExtEvent.frame t, ExtEvent.progress] } := by
          simp [extStep, ha]
        have hres := ih
          { s with awaiting := none,
                   events := s.events ++ [ExtEvent.frame t, ExtEvent.progress] }
          hd hb
        rw [show extRun s (ExtOp.seekResolve :: ops)
            = extRun (extStep s ExtOp.seekResolve) ops from rfl, hstep]
        rcases hres with ⟨he, haw⟩ | ⟨t', ht', hee, haww⟩
        · exact Or.inr ⟨t, rfl, he, haw⟩
        · exact absurd ht' (by simp)

/-- C8 (corrected, counterexample): load a file, start a capture (the
extraction suspends awaiting `seeked`), call `dispose()`, then let the
pending seek resolve.  Nothing had been emitted up to the disposal, yet
the in-flight capture still pushes its frame and fires the progress
callback afterwards — the dispose is only observed at the next loop
iteration, so in-flight captures do not stop immediately as claimed. -/
theorem claim_C8_counterexample :
    (extRun extInit [ExtOp.loadFile, ExtOp.seekStart 0, ExtOp.dispose]).isDisposed
        = true ∧
      (extRun extInit [ExtOp.loadFile, ExtOp.seekStart 0, ExtOp.dispose]).events
        = [] ∧
      (extRun extInit
          [ExtOp.loadFile, ExtOp.seekStart 0, ExtOp.dispose, ExtOp.seekResolve]).events
        = [ExtEvent.frame 0, ExtEvent.progress] :=
  ⟨rfl, rfl, rfl⟩

/-- C8 (amended): after `dispose()` no new seek/capture is started and
the video error event is suppressed (so no disposal-triggered error
reaches the caller); at most the single capture already in flight can
still deliver its one frame and progress callback, after which nothing
more is emitted; and every blob URL ever created has been revoked
exactly once. -/
theorem claim_C8_amended (ops : List ExtOp) (t : ℚ)
    (h : (extRun extInit ops).isDisposed = true) :
    (extStep (extRun extInit ops) (ExtOp.seekStart t) = extRun extInit ops) ∧
    (extStep (extRun extInit ops) ExtOp.errorEvent = extRun extInit ops) ∧
    (∀ more : List ExtOp,
      (extRun (extRun extInit ops) more).events = (extRun extInit ops).events ∨
      (∃ t0, (extRun extInit ops).awaiting = some t0 ∧
        (extRun (extRun extInit ops) more).events
          = (extRun extInit ops).events ++ [ExtEvent.frame t0, ExtEvent.progress])) ∧
    (∀ u ∈ (extRun extInit ops).created,
        (extRun extInit ops).revoked.count u = 1) := by
  obtain ⟨hnd, hlt, hcur, hmem, hdisp⟩ := extInv_run ops extInit extInv_init
  have hb : (extRun extInit ops).blobUrl = none := hdisp h
  obtain ⟨h1, h2, h3, h4⟩ := extStep_of_disposed (extRun extInit ops) h hb
  refine ⟨h2 t, h3, ?_, ?_⟩
  · intro more
    rcases extRun_events_of_disposed more (extRun extInit ops) h hb with
      ⟨he, _⟩ | ⟨t0, ht0, he, _⟩
    · exact Or.inl he
    · exact Or.inr ⟨t0, ht0, he⟩
  · intro u hu
    have hurev : u ∈ (extRun extInit ops).revoked := by
      rcases (hmem u).mp hu with hin | hsome
      · exact hin
      · rw [hb] at hsome
        exact absurd hsome (by simp)
    exact List.nodup_iff_count_eq_one.mp hnd u hurev

/-- C8 witness: the amended theorem applied after a file load, one
issued capture and `dispose()`. -/
theorem claim_C8_amended_witness :
    (extStep (extRun extInit [ExtOp.loadFile, ExtOp.seekStart 0, ExtOp.dispose])
        (ExtOp.seekStart 1)
      = extRun extInit [ExtOp.loadFile, ExtOp.seekStart 0, ExtOp.dispose]) ∧
    (extStep (extRun extInit [ExtOp.loadFile, ExtOp.seekStart 0, ExtOp.dispose])
        ExtOp.errorEvent
      = extRun extInit [ExtOp.loadFile, ExtOp.seekStart 0, ExtOp.dispose]) ∧
    (∀ more : List ExtOp,
      (extRun (extRun extInit [ExtOp.loadFile, ExtOp.seekStart 0, ExtOp.dispose])
          more).events
        = (extRun extInit [ExtOp.loadFile, ExtOp.seekStart 0, ExtOp.dispose]).events ∨
      (∃ t0,
        (extRun extInit [ExtOp.loadFile, ExtOp.seekStart 0, ExtOp.dispose]).awaiting
          = some t0 ∧
        (extRun (extRun extInit [ExtOp.loadFile, ExtOp.seekStart 0, ExtOp.dispose])
            more).events
          = (extRun extInit
              [ExtOp.loadFile, ExtOp.seekStart 0, ExtOp.dispose]).events
            ++ [ExtEvent.frame t0, ExtEvent.progress])) ∧
    (∀ u ∈ (extRun extInit
        [ExtOp.loadFile, ExtOp.seekStart 0, ExtOp.dispose]).created,
      (extRun extInit
        [ExtOp.loadFile, ExtOp.seekStart 0, ExtOp.dispose]).revoked.count u = 1) :=
  claim_C8_amended [ExtOp.loadFile, ExtOp.seekStart 0, ExtOp.dispose] 1 rfl

/-! ### `useFrameExtractor` supersession (`hooks/use-frame-extractor.ts`)

A trace model of the hook's `extractFrames` callback at the granularity
of its suspension points.  Each call to `extractFrames` is a generation;
`abortFlag` models the single shared `abortRef`; `disposedGens` records
which generations' extractors have been disposed.  A suspended
generation resumes only between the synchronous blocks of other code. -/

/-- The caller-visible callbacks of the hook, tagged by the generation
that emitted them. -/
inductive HookEvent where
  | progress (gen : ℕ)
  | complete (gen : ℕ)
  deriving DecidableEq, Repr

/-- The hook's mutable state. -/
structure HookState where
  abortFlag : Bool
  current : Option ℕ
  disposedGens : List ℕ
  events : List HookEvent
  deriving DecidableEq, Repr

def hookInit : HookState :=
  { abortFlag := false, current := none, disposedGens := [], events := [] }

/-- The schedulable steps:

* `startExtract g` — the synchronous prefix of a fresh `extractFrames`
  call: `abortRef.current = true; extractorRef.current?.dispose();
  abortRef.current = false;` and a new extractor (generation `g`) is
  installed.  The transient `true` is unobservable because no other code
  runs inside the synchronous block, so only the net effect is recorded.
* `taskResume g last` — generation `g` resumes after its pending
  `captureFrame` resolved: the frame is pushed and the progress closure
  fires `onProgress` when `!abortRef.current`; then the loop either
  continues (suspending again) or — when `last` or the generation's
  extractor is disposed (`if (this.isDisposed) break`) — falls through
  to the completion block, which fires `onComplete` when
  `!abortRef.current`. -/
inductive HookOp where
  | startExtract (g : ℕ)
  | taskResume (g : ℕ) (last : Bool)
  deriving DecidableEq, Repr

def hookStep (s : HookState) (op : HookOp) : HookState :=
  match op with
  | .startExtract g =>
    let disposed :=
      match s.current with
      | some old => s.disposedGens ++ [old]
      | none => s.disposedGens
    { s with abortFlag := false, current := some g, disposedGens := disposed }
  | .taskResume g last =>
    if s.abortFlag then s
    else
      let s1 := { s with events := s.events ++ [.progress g] }
      if last = true ∨ g ∈ s.disposedGens then
        { s1 with events := s1.events ++ [.complete g] }
      else s1

def hookRun (s : HookState) (ops : List HookOp) : HookState :=
  ops.foldl hookStep s

/-- C2 (code bug): start extraction A (generation 0), let it deliver one
progress tick, start extraction B (generation 1) — which disposes A's
extractor and resets the shared abort flag to `false` — then let A's
in-flight capture resolve and B finish.  On resume, A pushes its frame
and fires progress, and its loop then breaks on the disposed extractor;
the completion block only checks the shared `abortRef`, which B has
already reset, so A's completion callback fires with its partial frames.
The caller observes a stale progress callback and two completion
callbacks, not just B's. -/
theorem claim_C2_stale_callbacks :
    (hookRun hookInit
      [HookOp.startExtract 0, HookOp.taskResume 0 false, HookOp.startExtract 1,
       HookOp.taskResume 0 false, HookOp.taskResume 1 true]).events
      = [HookEvent.progress 0, HookEvent.progress 0, HookEvent.complete 0,
         HookEvent.progress 1, HookEvent.complete 1] := by
  decide

end VideoTimeline
